import Mathlib

/-!
Verification of the rank-iteration engine of a PageRank implementation
(src/src/pagerankBasic.hxx) against its natural-language specification.

The loop bodies and the four drivers are shallowly embedded from the source.
Real-valued quantities are modelled over ℚ (the choice of floating-point
precision is declared an external concern by the spec).  The external
collaborators that the source file calls but that are not part of the given
source (RankPropagator, ConvergenceMetric, DanglingMassEstimator,
AffectedSetBuilder, the driver helper pagerankSeq/pagerankOmp, and the small
buffer utilities from the support headers) are modelled from the spec; each
such definition carries a doc comment saying so.

Worker failure flags are externally settable during a run; they are modelled
as a function from check points to flag vectors: threads l is the vector of
per-worker crashed flags as sampled by the crash check that follows the l-th
completed iteration.
-/

namespace PagerankBasic

/-- Run-constant parameters of the PageRank loop: scaling factors f, CSR edge
offsets xv and edge targets xe of the (transposed) graph, out-degrees vdeg,
vertex count N, damping factor P, tolerance E, iteration cap L, error-function
selector EF, and the index range start i and count n. -/
structure LoopParams where
  f : List ℚ
  xv : List Nat
  xe : List Nat
  vdeg : List Nat
  N : Nat
  P : ℚ
  E : ℚ
  L : Nat
  EF : Nat
  i : Nat
  n : Nat

/-- The mutable buffers of the loop: current ranks a, previous ranks r,
contributions c. -/
structure LoopState where
  a : List ℚ
  r : List ℚ
  c : List ℚ

/-- Modelled from the spec: DanglingMassEstimator pagerankTeleport
(pagerank.hxx, not under src/).  The base contribution constant when dead-end
handling is enabled: the plain teleport term plus the damping-weighted rank of
the zero-out-degree vertices of the previous iteration, redistributed
uniformly. -/
def pagerankTeleport (r : List ℚ) (vdeg : List Nat) (P : ℚ) (N : Nat) : ℚ :=
  (1 - P) / (N : ℚ) +
    P / (N : ℚ) *
      ((List.range N).map (fun v => if vdeg.getD v 0 = 0 then r.getD v 0 else 0)).sum

/-- Modelled from the spec: RankPropagator pagerankCalculateRanks
(pagerank.hxx, not under src/).  For each vertex position v in the range
[i, i+n) for which the affected predicate fa holds, the new rank is the base
constant C0 plus the sum of the contributions c of the in-neighbours of v
listed in the CSR arrays xv, xe; every other vertex keeps its previous
rank. -/
def pagerankCalculateRanks (a c : List ℚ) (xv xe : List Nat) (C0 : ℚ)
    (i n : Nat) (fa : Nat → Bool) : List ℚ :=
  (List.range a.length).map (fun v =>
    if i ≤ v ∧ v < i + n ∧ fa v = true then
      C0 + ((List.range (xv.getD (v + 1) 0 - xv.getD v 0)).map
        (fun t => c.getD (xe.getD (xv.getD v 0 + t) 0) 0)).sum
    else a.getD v 0)

/-- Modelled from the spec: multiplyValuesW (_main.hxx, not under src/).
Pointwise product written into the contribution buffer on the index range:
c[v] = a[v] * f[v] for v in [i, i+n). -/
def multiplyValuesW (c a f : List ℚ) (i n : Nat) : List ℚ :=
  (List.range c.length).map (fun v =>
    if i ≤ v ∧ v < i + n then a.getD v 0 * f.getD v 0 else c.getD v 0)

/-- Modelled from the spec: ConvergenceMetric pagerankError (pagerank.hxx,
not under src/).  EF = 1 selects L1 (sum of absolute differences), EF = 2
selects L2 as the sum of squared differences (the spec allows the square-free
variant as long as it is consistent with the tolerance), anything else selects
the maximum absolute difference. -/
def pagerankError (a r : List ℚ) (EF : Nat) (i n : Nat) : ℚ :=
  let d := (List.range n).map (fun t => |a.getD (i + t) 0 - r.getD (i + t) 0|)
  match EF with
  | 1 => d.sum
  | 2 => (d.map (fun x => x * x)).sum
  | _ => d.foldl max 0

/-- The base contribution constant chosen at the top of each iteration
(src/src/pagerankBasic.hxx lines 45 and 62). -/
def pagerankC0 (DEAD : Bool) (p : LoopParams) (r : List ℚ) : ℚ :=
  if DEAD then pagerankTeleport r p.vdeg p.P p.N else (1 - p.P) / (p.N : ℚ)

/-- One iteration of the loop body shared by pagerankBasicSeqLoop and
pagerankBasicOmpLoop (src/src/pagerankBasic.hxx lines 45-49 and 62-66, the
two strategies compute the same values per the spec, the parallel one via
partial reductions): choose C0, update the ranks of the affected vertices,
refresh the contributions, measure the error, and exchange the current and
previous buffers unless the discipline is asynchronous.  Returns the new
state and the error of this iteration. -/
def pagerankBasicStep (ASYNC DEAD : Bool) (p : LoopParams) (fa : Nat → Bool)
    (s : LoopState) : LoopState × ℚ :=
  let C0 := pagerankC0 DEAD p s.r
  let a2 := pagerankCalculateRanks s.a s.c p.xv p.xe C0 p.i p.n fa
  let c2 := multiplyValuesW s.c a2 p.f p.i p.n
  let el := pagerankError a2 s.r p.EF p.i p.n
  (if ASYNC then ⟨a2, s.r, c2⟩ else ⟨s.r, a2, c2⟩, el)

/-- The convergence loop shared by both strategies: run the body while the
iteration count is below the cap (fuel starts at L and counts the remaining
allowed iterations), stopping after an iteration whose error is below the
tolerance or after which the crash condition holds.  Returns the final state
and the number of iterations performed. -/
def loopGo {σ : Type} (body : σ → σ × ℚ) (E : ℚ) (crash : Nat → Bool) :
    Nat → σ → Nat → σ × Nat
  | 0, s, l => (s, l)
  | fuel + 1, s, l =>
    if (body s).2 < E then ((body s).1, l + 1)
    else if crash (l + 1) then ((body s).1, l + 1)
    else loopGo body E crash fuel (body s).1 (l + 1)

/-- Modelled from the spec: threadInfosCrashedCount (_main.hxx, not under
src/): the number of workers whose failure flag is set. -/
def threadInfosCrashedCount (ts : List Bool) : Nat := ts.countP (fun b => b)

/-- Shallow embedding of pagerankBasicSeqLoop (src/src/pagerankBasic.hxx
lines 41-54).  The crash check reads worker 0's failure flag.  The unused
error vector e and the side-effect-only per-vertex callback fv of the source
signature are omitted. -/
def pagerankBasicSeqLoop (ASYNC DEAD : Bool) (p : LoopParams)
    (fa : Nat → Bool) (threads : Nat → List Bool) (s0 : LoopState) :
    LoopState × Nat :=
  loopGo (pagerankBasicStep ASYNC DEAD p fa) p.E
    (fun l => (threads l).getD 0 false) p.L s0 0

/-- Shallow embedding of pagerankBasicOmpLoop (src/src/pagerankBasic.hxx
lines 58-71).  Identical to the single-worker loop except that the crash
check stops the run when any worker's failure flag is set. -/
def pagerankBasicOmpLoop (ASYNC DEAD : Bool) (p : LoopParams)
    (fa : Nat → Bool) (threads : Nat → List Bool) (s0 : LoopState) :
    LoopState × Nat :=
  loopGo (pagerankBasicStep ASYNC DEAD p fa) p.E
    (fun l => decide (0 < threadInfosCrashedCount (threads l))) p.L s0 0

/-- The state of a run after j complete iterations of the body. -/
def traceSt {σ : Type} (body : σ → σ × ℚ) (s0 : σ) : Nat → σ
  | 0 => s0
  | j + 1 => (body (traceSt body s0 j)).1

/-- The error computed during iteration j+1 of a run. -/
def traceErr {σ : Type} (body : σ → σ × ℚ) (s0 : σ) (j : Nat) : ℚ :=
  (body (traceSt body s0 j)).2

/-- The graph view the drivers read (spec 6: Graph view contract): the
transpose graph H of the source, exposing the ordered vertex-key enumeration
ks, the CSR in-edge arrays xv and xe over dense positions, and the original
out-degree vdeg per position. -/
structure TransposeGraph where
  ks : List Nat
  xv : List Nat
  xe : List Nat
  vdeg : List Nat

/-- Vertex count of the graph view. -/
def TransposeGraph.order (g : TransposeGraph) : Nat := g.ks.length

/-- A keyed graph G as the traversal reads it: its vertex keys and its
out-neighbour keys per vertex. -/
structure Graph where
  verts : List Nat
  adj : Nat → List Nat

/-- Run configuration (pagerank.hxx PagerankOptions, fields as the source
uses them). -/
structure PagerankOptions where
  damping : ℚ
  tolerance : ℚ
  maxIterations : Nat
  toleranceNorm : Nat

/-- Run result (pagerank.hxx PagerankResult): final ranks and iterations
performed.  The default-constructed result returned on a zero-vertex graph
has empty ranks and iteration count 0. -/
structure PagerankResult where
  ranks : List ℚ
  iterations : Nat

/-- Modelled from the spec: gatherValuesW (_main.hxx, not under src/): read
the caller's key-indexed initial rank vector q into the dense position space,
r[u] = q[ks[u]]. -/
def gatherValues (q : List ℚ) (ks : List Nat) : List ℚ :=
  ks.map (fun k => q.getD k 0)

/-- Modelled from the spec: pagerankFactorW (pagerank.hxx, not under src/):
the per-vertex damping-adjusted divisor, f[v] = P / degree[v] when
degree[v] > 0, guarded to 0 at out-degree 0 (spec 3, invariants). -/
def pagerankFactor (vdeg : List Nat) (P : ℚ) : List ℚ :=
  vdeg.map (fun d => if d = 0 then 0 else P / (d : ℚ))

/-- Modelled from the spec: the initial rank vector of a run, the caller's
vector gathered through the key enumeration when given, uniform 1/N
otherwise. -/
def initialRanks (xt : TransposeGraph) (q : Option (List ℚ)) : List ℚ :=
  match q with
  | some qv => gatherValues qv xt.ks
  | none => List.replicate xt.order ((1 : ℚ) / (xt.order : ℚ))

/-- The loop parameters a driver builds from the graph view and the
options. -/
def loopParamsOf (xt : TransposeGraph) (o : PagerankOptions) (i n : Nat) :
    LoopParams :=
  ⟨pagerankFactor xt.vdeg o.damping, xt.xv, xt.xe, xt.vdeg, xt.order,
    o.damping, o.tolerance, o.maxIterations, o.toleranceNorm, i, n⟩

/-- The buffers of an asynchronous run: the spec makes previous the live
buffer (current and previous are aliased), so one rank buffer r and the
contribution buffer c remain. -/
structure AliasedState where
  r : List ℚ
  c : List ℚ

/-- Modelled from the spec: the loop body as executed under the asynchronous
discipline, where the driver enters the loop with the current and previous
buffers aliased ("previous" is the live buffer, spec 3): every write to the
current ranks is a write to the previous ranks, and the buffer exchange is
the identity. -/
def pagerankBasicStepAliased (DEAD : Bool) (p : LoopParams)
    (fa : Nat → Bool) (s : AliasedState) : AliasedState × ℚ :=
  let C0 := pagerankC0 DEAD p s.r
  let r2 := pagerankCalculateRanks s.r s.c p.xv p.xe C0 p.i p.n fa
  let c2 := multiplyValuesW s.c r2 p.f p.i p.n
  let el := pagerankError r2 r2 p.EF p.i p.n
  (⟨r2, c2⟩, el)

/-- Modelled from the spec: the driver helper pagerankSeq (pagerank.hxx, not
under src/): build the dense buffers (initial ranks r0 from q or uniform,
factors f, contributions c0 = r0 * f), run the single-worker loop over the
index range [i, i+n) with the supplied affected predicate, and return the
final ranks (held in the previous buffer r) with the iteration count.  In
asynchronous mode the loop is entered with current and previous aliased. -/
def pagerankSeq (ASYNC DEAD : Bool) (xt : TransposeGraph)
    (q : Option (List ℚ)) (o : PagerankOptions) (i n : Nat)
    (threads : Nat → List Bool) (fa : Nat → Bool) : PagerankResult :=
  let N := xt.order
  let p := loopParamsOf xt o i n
  let r0 := initialRanks xt q
  let c0 := multiplyValuesW (List.replicate N 0) r0 p.f 0 N
  if ASYNC then
    let res := loopGo (pagerankBasicStepAliased DEAD p fa) p.E
      (fun l => (threads l).getD 0 false) p.L ⟨r0, c0⟩ 0
    ⟨res.1.r, res.2⟩
  else
    let res := pagerankBasicSeqLoop false DEAD p fa threads ⟨r0, r0, c0⟩
    ⟨res.1.r, res.2⟩

/-- Modelled from the spec: the driver helper pagerankOmp (pagerank.hxx, not
under src/): as pagerankSeq, but running the partitioned-multi-worker loop,
whose crash check stops the run when any worker's failure flag is set. -/
def pagerankOmp (ASYNC DEAD : Bool) (xt : TransposeGraph)
    (q : Option (List ℚ)) (o : PagerankOptions) (i n : Nat)
    (threads : Nat → List Bool) (fa : Nat → Bool) : PagerankResult :=
  let N := xt.order
  let p := loopParamsOf xt o i n
  let r0 := initialRanks xt q
  let c0 := multiplyValuesW (List.replicate N 0) r0 p.f 0 N
  if ASYNC then
    let res := loopGo (pagerankBasicStepAliased DEAD p fa) p.E
      (fun l => decide (0 < threadInfosCrashedCount (threads l))) p.L
      ⟨r0, c0⟩ 0
    ⟨res.1.r, res.2⟩
  else
    let res := pagerankBasicOmpLoop false DEAD p fa threads ⟨r0, r0, c0⟩
    ⟨res.1.r, res.2⟩

/-- Shallow embedding of pagerankBasicSeq (src/src/pagerankBasic.hxx lines
88-95): zero-vertex early return, then the loop over the full range [0, N)
with the constant-true affected predicate. -/
def pagerankBasicSeq (ASYNC DEAD : Bool) (xt : TransposeGraph)
    (q : Option (List ℚ)) (o : PagerankOptions)
    (threads : Nat → List Bool) : PagerankResult :=
  let N := xt.order
  if N = 0 then ⟨[], 0⟩ else
  pagerankSeq ASYNC DEAD xt q o 0 N threads (fun _ => true)

/-- Shallow embedding of pagerankBasicOmp (src/src/pagerankBasic.hxx lines
99-107). -/
def pagerankBasicOmp (ASYNC DEAD : Bool) (xt : TransposeGraph)
    (q : Option (List ℚ)) (o : PagerankOptions)
    (threads : Nat → List Bool) : PagerankResult :=
  let N := xt.order
  if N = 0 then ⟨[], 0⟩ else
  pagerankOmp ASYNC DEAD xt q o 0 N threads (fun _ => true)

/-- One expansion step of the affected-set traversal: keep the frontier and
add every out-neighbour of it. -/
def reachExpand (g : Graph) (s : List Nat) : List Nat :=
  (s ++ s.flatMap g.adj).dedup

/-- Iterate a function k times. -/
def iterateN {α : Type} (h : α → α) : Nat → α → α
  | 0, x => x
  | k + 1, x => iterateN h k (h x)

/-- Modelled from the spec: AffectedSetBuilder
pagerankAffectedVerticesTraversal (pagerank.hxx, not under src/): the set of
vertices reachable in the pre-change graph from any endpoint of a deleted or
inserted edge, as a key-indexed boolean map.  The traversal closure is
reached after at most as many expansion steps as the graph has vertices. -/
def pagerankAffectedVerticesTraversal (x : Graph)
    (deletions insertions : List (Nat × Nat)) : Nat → Bool :=
  let seeds := (deletions ++ insertions).flatMap (fun e => [e.1, e.2])
  let closure := iterateN (reachExpand x) x.verts.length seeds
  fun v => closure.contains v

/-- Modelled from the spec: compressContainer (_main.hxx, not under src/):
remap a vertex-keyed boolean container into the dense position space given by
the ordered key enumeration ks of the post-change graph (the graph argument
only sizes the result in the source). -/
def compressContainer (y : Graph) (m : Nat → Bool) (ks : List Nat) :
    List Bool :=
  ks.map m

/-- Shallow embedding of pagerankBasicDynamicTraversalSeq
(src/src/pagerankBasic.hxx lines 128-135): zero-vertex early return, affected
set from the traversal on the pre-change graph x with the batch, remapped
into the dense position space of the post-change graph, then the loop over
the full range with the resulting predicate.  The pre-change transpose xt is
a parameter of the source signature that its body never reads. -/
def pagerankBasicDynamicTraversalSeq (ASYNC DEAD : Bool) (x : Graph)
    (xt : TransposeGraph) (y : Graph) (yt : TransposeGraph)
    (deletions insertions : List (Nat × Nat)) (q : Option (List ℚ))
    (o : PagerankOptions) (threads : Nat → List Bool) : PagerankResult :=
  let N := yt.order
  if N = 0 then ⟨[], 0⟩ else
  let ks := yt.ks
  let vaff :=
    compressContainer y
      (pagerankAffectedVerticesTraversal x deletions insertions) ks
  pagerankSeq ASYNC DEAD yt q o 0 N threads (fun u => vaff.getD u false)

/-- Shallow embedding of pagerankBasicDynamicTraversalOmp
(src/src/pagerankBasic.hxx lines 139-146). -/
def pagerankBasicDynamicTraversalOmp (ASYNC DEAD : Bool) (x : Graph)
    (xt : TransposeGraph) (y : Graph) (yt : TransposeGraph)
    (deletions insertions : List (Nat × Nat)) (q : Option (List ℚ))
    (o : PagerankOptions) (threads : Nat → List Bool) : PagerankResult :=
  let N := yt.order
  if N = 0 then ⟨[], 0⟩ else
  let ks := yt.ks
  let vaff :=
    compressContainer y
      (pagerankAffectedVerticesTraversal x deletions insertions) ks
  pagerankOmp ASYNC DEAD yt q o 0 N threads (fun u => vaff.getD u false)

/-- The dangling-mass estimate as the spec words it (spec 4.1 step 1): the
damping-weighted rank trapped at the zero-out-degree vertices of the previous
iteration, redistributed uniformly, accumulated on top of the plain teleport
term. -/
def danglingMassSpec (r : List ℚ) (vdeg : List Nat) (P : ℚ) (N : Nat) : ℚ :=
  ((List.range N).filter (fun v => vdeg.getD v 0 == 0)).foldl
    (fun s v => s + P * r.getD v 0 / (N : ℚ)) ((1 - P) / (N : ℚ))

/-- The rank vector written during iteration j+1 of a run of the loop: the
propagation applied to the buffers after j complete iterations, with the base
constant chosen from the previous-iteration ranks. -/
def newRanksAt (ASYNC DEAD : Bool) (p : LoopParams) (fa : Nat → Bool)
    (s0 : LoopState) (j : Nat) : List ℚ :=
  let s := traceSt (pagerankBasicStep ASYNC DEAD p fa) s0 j
  pagerankCalculateRanks s.a s.c p.xv p.xe (pagerankC0 DEAD p s.r) p.i p.n fa

/-- The rank propagation with no affected restriction: every vertex of the
index range is recomputed. -/
def pagerankCalculateRanksAll (a c : List ℚ) (xv xe : List Nat) (C0 : ℚ)
    (i n : Nat) : List ℚ :=
  (List.range a.length).map (fun v =>
    if i ≤ v ∧ v < i + n then
      C0 + ((List.range (xv.getD (v + 1) 0 - xv.getD v 0)).map
        (fun t => c.getD (xe.getD (xv.getD v 0 + t) 0) 0)).sum
    else a.getD v 0)

/-- The affected predicate as the spec words it (spec 4.4): position u of the
post-change graph is affected exactly when the u-th vertex key of the
post-change enumeration lies in the affected set computed by the traversal on
the pre-change graph with the deletion/insertion batch. -/
def affectedSpecPred (x : Graph) (yt : TransposeGraph)
    (deletions insertions : List (Nat × Nat)) : Nat → Bool :=
  fun u => pagerankAffectedVerticesTraversal x deletions insertions
    (yt.ks.getD u 0)

/-- The ranks produced by one update of the static driver from its initial
rank vector (the quantity whose distance to the initial ranks the idempotence
property constrains). -/
def staticFirstUpdate (DEAD : Bool) (xt : TransposeGraph)
    (q : Option (List ℚ)) (o : PagerankOptions) : List ℚ :=
  let p := loopParamsOf xt o 0 xt.order
  let r0 := initialRanks xt q
  let c0 := multiplyValuesW (List.replicate xt.order 0) r0 p.f 0 xt.order
  pagerankCalculateRanks r0 c0 p.xv p.xe (pagerankC0 DEAD p r0) p.i p.n
    (fun _ => true)

/-- The loop parameters the static drivers build: full range [0, N). -/
def staticParams (xt : TransposeGraph) (o : PagerankOptions) : LoopParams :=
  loopParamsOf xt o 0 xt.order

/-- The initial contribution buffer of a static run. -/
def staticContrib (xt : TransposeGraph) (q : Option (List ℚ))
    (o : PagerankOptions) : List ℚ :=
  multiplyValuesW (List.replicate xt.order 0) (initialRanks xt q)
    (staticParams xt o).f 0 xt.order

/-- The loop state a synchronous static run starts from. -/
def staticState (xt : TransposeGraph) (q : Option (List ℚ))
    (o : PagerankOptions) : LoopState :=
  ⟨initialRanks xt q, initialRanks xt q, staticContrib xt q o⟩

/-- The aliased loop state an asynchronous static run starts from. -/
def staticStateAliased (xt : TransposeGraph) (q : Option (List ℚ))
    (o : PagerankOptions) : AliasedState :=
  ⟨initialRanks xt q, staticContrib xt q o⟩

/-- Concrete one-vertex edgeless graph view. -/
def xtOne : TransposeGraph := ⟨[0], [0, 0], [], [0]⟩

/-- Concrete zero-vertex graph view. -/
def xtNil : TransposeGraph := ⟨[], [0], [], []⟩

/-- Concrete zero-vertex keyed graph. -/
def gNil : Graph := ⟨[], fun _ => []⟩

/-- Concrete two-vertex keyed graph with the single edge 0 to 1. -/
def gTwo : Graph := ⟨[0, 1], fun v => if v = 0 then [1] else []⟩

/-- Concrete transpose view of the two-vertex graph with the edge 0 to 1:
position 1 has the single in-edge from position 0. -/
def ytTwo : TransposeGraph := ⟨[0, 1], [0, 0, 1], [0], [1, 0]⟩

/-- Concrete options: damping 17/20, tolerance 1, cap 3, L1 norm. -/
def oTol : PagerankOptions := ⟨17 / 20, 1, 3, 1⟩

/-- Concrete loop parameters from the one-vertex graph and tolerance 1. -/
def pTol : LoopParams := loopParamsOf xtOne oTol 0 1

/-- Concrete loop state for the one-vertex graph. -/
def sOne : LoopState := ⟨[1], [1], [0]⟩

/-- A single worker whose failure flag is never set. -/
def thrFalse : Nat → List Bool := fun _ => [false]

/-- A single worker whose failure flag is set from the start. -/
def thrTrue : Nat → List Bool := fun _ => [true]

/-- The constant-true affected predicate. -/
def faTrue : Nat → Bool := fun _ => true

/-!  Characterization of the convergence loop: it returns the state after
some number l of complete iterations, l never exceeds the fuel, at least one
iteration runs when the fuel allows it, no check strictly before the l-th
stopped the loop, and if the fuel was not exhausted then the l-th check
stopped it. -/

theorem loopGo_char {σ : Type} (body : σ → σ × ℚ) (E : ℚ) (crash : Nat → Bool)
    (s0 : σ) :
    ∀ fuel j, ∃ l,
      loopGo body E crash fuel (traceSt body s0 j) j = (traceSt body s0 l, l) ∧
      j ≤ l ∧ l ≤ j + fuel ∧ (0 < fuel → j < l) ∧
      (∀ m, j < m → m < l → ¬ traceErr body s0 (m - 1) < E ∧ crash m = false) ∧
      (l < j + fuel → traceErr body s0 (l - 1) < E ∨ crash l = true) := by
  intro fuel
  induction fuel with
  | zero =>
    intro j
    exact ⟨j, rfl, Nat.le_refl j, Nat.le_refl j,
      fun h => absurd h (Nat.lt_irrefl 0),
      fun m h1 h2 => absurd (Nat.lt_trans h1 h2) (Nat.lt_irrefl j),
      fun h => absurd h (Nat.lt_irrefl j)⟩
  | succ fuel ih =>
    intro j
    by_cases hE : traceErr body s0 j < E
    · exact ⟨j + 1, if_pos hE, Nat.le_succ j,
        Nat.succ_le_succ (Nat.le_add_right j fuel),
        fun _ => Nat.lt_succ_self j,
        fun m h1 h2 => absurd h1 (Nat.not_lt.mpr (Nat.lt_succ_iff.mp h2)),
        fun _ => Or.inl hE⟩
    · by_cases hC : crash (j + 1) = true
      · exact ⟨j + 1, (if_neg hE).trans (if_pos hC), Nat.le_succ j,
          Nat.succ_le_succ (Nat.le_add_right j fuel),
          fun _ => Nat.lt_succ_self j,
          fun m h1 h2 => absurd h1 (Nat.not_lt.mpr (Nat.lt_succ_iff.mp h2)),
          fun _ => Or.inr hC⟩
      · obtain ⟨l, heq, hjl, hlf, hpos, hmid, hstop⟩ := ih (j + 1)
        have hlf2 : l ≤ j + (fuel + 1) :=
          Nat.add_right_comm j 1 fuel ▸ hlf
        refine ⟨l, ((if_neg hE).trans (if_neg hC)).trans heq,
          Nat.le_of_succ_le hjl, hlf2,
          fun _ => Nat.lt_of_lt_of_le (Nat.lt_succ_self j) hjl, ?_, ?_⟩
        · intro m h1 h2
          by_cases hm : m = j + 1
          · subst hm
            exact ⟨hE, Bool.eq_false_iff.mpr hC⟩
          · exact hmid m (Nat.lt_of_le_of_ne (Nat.succ_le_of_lt h1)
              (fun e => hm e.symm)) h2
        · intro h
          exact hstop ((Nat.add_right_comm j 1 fuel).symm ▸ h)

/-- The single-worker loop returns the state after l complete iterations for
an l that is at most the cap, is positive when the cap is, whose earlier
checks (error below tolerance, worker 0 crashed) all failed, and whose own
check stopped the loop unless the cap was reached. -/
theorem pagerankBasicSeqLoop_char (ASYNC DEAD : Bool) (p : LoopParams)
    (fa : Nat → Bool) (threads : Nat → List Bool) (s0 : LoopState) :
    ∃ l, pagerankBasicSeqLoop ASYNC DEAD p fa threads s0
        = (traceSt (pagerankBasicStep ASYNC DEAD p fa) s0 l, l) ∧
      l ≤ p.L ∧ (0 < p.L → 0 < l) ∧
      (∀ m, 0 < m → m < l →
        ¬ traceErr (pagerankBasicStep ASYNC DEAD p fa) s0 (m - 1) < p.E ∧
          (threads m).getD 0 false = false) ∧
      (l < p.L →
        traceErr (pagerankBasicStep ASYNC DEAD p fa) s0 (l - 1) < p.E ∨
          (threads l).getD 0 false = true) := by
  obtain ⟨l, heq, h1, h2, h3, h4, h5⟩ :=
    loopGo_char (pagerankBasicStep ASYNC DEAD p fa) p.E
      (fun l => (threads l).getD 0 false) s0 p.L 0
  exact ⟨l, heq, Nat.zero_add p.L ▸ h2, h3, h4,
    fun hlt => h5 ((Nat.zero_add p.L).symm ▸ hlt)⟩

/-- The multi-worker loop returns the state after l complete iterations, with
the same characterization as the single-worker one except that its crash
check reads every worker's failure flag. -/
theorem pagerankBasicOmpLoop_char (ASYNC DEAD : Bool) (p : LoopParams)
    (fa : Nat → Bool) (threads : Nat → List Bool) (s0 : LoopState) :
    ∃ l, pagerankBasicOmpLoop ASYNC DEAD p fa threads s0
        = (traceSt (pagerankBasicStep ASYNC DEAD p fa) s0 l, l) ∧
      l ≤ p.L ∧ (0 < p.L → 0 < l) ∧
      (∀ m, 0 < m → m < l →
        ¬ traceErr (pagerankBasicStep ASYNC DEAD p fa) s0 (m - 1) < p.E ∧
          ¬ 0 < threadInfosCrashedCount (threads m)) ∧
      (l < p.L →
        traceErr (pagerankBasicStep ASYNC DEAD p fa) s0 (l - 1) < p.E ∨
          0 < threadInfosCrashedCount (threads l)) := by
  obtain ⟨l, heq, h1, h2, h3, h4, h5⟩ :=
    loopGo_char (pagerankBasicStep ASYNC DEAD p fa) p.E
      (fun l => decide (0 < threadInfosCrashedCount (threads l))) s0 p.L 0
  refine ⟨l, heq, Nat.zero_add p.L ▸ h2, h3, ?_, ?_⟩
  · intro m hm1 hm2
    obtain ⟨he, hc⟩ := h4 m hm1 hm2
    exact ⟨he, of_decide_eq_false hc⟩
  · intro h
    rcases h5 ((Nat.zero_add p.L).symm ▸ h) with he | hc
    · exact Or.inl he
    · exact Or.inr (of_decide_eq_true hc)

theorem foldl_max_init_le (L : List ℚ) : ∀ z : ℚ, z ≤ L.foldl max z := by
  induction L with
  | nil => intro z; exact le_refl z
  | cons x L ih =>
    intro z
    exact le_trans (le_max_left z x) (ih (max z x))

theorem foldl_max_of_le (L : List ℚ) :
    ∀ z : ℚ, (∀ x ∈ L, x ≤ z) → L.foldl max z = z := by
  induction L with
  | nil => intro z _; rfl
  | cons x L ih =>
    intro z h
    have hx : max z x = z := max_eq_left (h x (List.mem_cons_self x L))
    rw [List.foldl_cons, hx]
    exact ih z (fun y hy => h y (List.mem_cons_of_mem x hy))

/-- The convergence metric never returns a negative value, whichever norm is
selected. -/
theorem pagerankError_nonneg (a r : List ℚ) (EF : Nat) (i n : Nat) :
    0 ≤ pagerankError a r EF i n := by
  have hmem : ∀ x ∈ (List.range n).map
      (fun t => |a.getD (i + t) 0 - r.getD (i + t) 0|), 0 ≤ x := by
    intro x hx
    obtain ⟨t, _, rfl⟩ := List.mem_map.mp hx
    exact abs_nonneg _
  rcases EF with _ | _ | _ | EF
  · exact foldl_max_init_le _ 0
  · exact List.sum_nonneg hmem
  · refine List.sum_nonneg ?_
    intro x hx
    obtain ⟨y, _, rfl⟩ := List.mem_map.mp hx
    exact mul_self_nonneg y
  · exact foldl_max_init_le _ 0

/-- Comparing a rank vector with itself yields error zero, whichever norm is
selected. -/
theorem pagerankError_self (a : List ℚ) (EF : Nat) (i n : Nat) :
    pagerankError a a EF i n = 0 := by
  have hd : (List.range n).map
      (fun t => |a.getD (i + t) 0 - a.getD (i + t) 0|)
      = List.replicate n 0 := by
    rw [show (fun t => |a.getD (i + t) 0 - a.getD (i + t) 0|)
        = fun _ : Nat => (0 : ℚ) from funext (fun t => by simp)]
    simp [List.eq_replicate_iff]
  rcases EF with _ | _ | _ | EF
  · show ((List.range n).map _).foldl max 0 = 0
    rw [hd]
    exact foldl_max_of_le _ 0 (fun x hx => le_of_eq (List.eq_of_mem_replicate hx))
  · show ((List.range n).map _).sum = 0
    rw [hd]
    simp
  · show (((List.range n).map _).map (fun x => x * x)).sum = 0
    rw [hd]
    simp
  · show ((List.range n).map _).foldl max 0 = 0
    rw [hd]
    exact foldl_max_of_le _ 0 (fun x hx => le_of_eq (List.eq_of_mem_replicate hx))

/-- C3: For every input with maxIters L >= 1, the iteration loop terminates
(both loops are total functions, defined by structural recursion on the
remaining fuel L - l) and stops exactly when one of the three conditions
holds: the error of the final iteration is strictly below the tolerance, or
the iteration count has reached L, or a worker's failure flag is set
(worker 0 in the single-worker strategy, any worker in the multi-worker
strategy); no earlier check satisfied any of the three conditions, and the
returned iteration count never exceeds L. -/
theorem pagerank_loop_stop_conditions (ASYNC DEAD : Bool) (p : LoopParams)
    (fa : Nat → Bool) (threads : Nat → List Bool) (s0 : LoopState)
    (hL : 1 ≤ p.L) :
    (∃ l, pagerankBasicSeqLoop ASYNC DEAD p fa threads s0
        = (traceSt (pagerankBasicStep ASYNC DEAD p fa) s0 l, l) ∧
      1 ≤ l ∧ l ≤ p.L ∧
      (traceErr (pagerankBasicStep ASYNC DEAD p fa) s0 (l - 1) < p.E ∨
        l = p.L ∨ (threads l).getD 0 false = true) ∧
      (∀ m, 1 ≤ m → m < l →
        ¬ traceErr (pagerankBasicStep ASYNC DEAD p fa) s0 (m - 1) < p.E ∧
          m ≠ p.L ∧ (threads m).getD 0 false = false)) ∧
    (∃ l, pagerankBasicOmpLoop ASYNC DEAD p fa threads s0
        = (traceSt (pagerankBasicStep ASYNC DEAD p fa) s0 l, l) ∧
      1 ≤ l ∧ l ≤ p.L ∧
      (traceErr (pagerankBasicStep ASYNC DEAD p fa) s0 (l - 1) < p.E ∨
        l = p.L ∨ 0 < threadInfosCrashedCount (threads l)) ∧
      (∀ m, 1 ≤ m → m < l →
        ¬ traceErr (pagerankBasicStep ASYNC DEAD p fa) s0 (m - 1) < p.E ∧
          m ≠ p.L ∧ ¬ 0 < threadInfosCrashedCount (threads m))) := by
  constructor
  · obtain ⟨l, heq, h1, h2, h3, h4⟩ :=
      pagerankBasicSeqLoop_char ASYNC DEAD p fa threads s0
    refine ⟨l, heq, h2 hL, h1, ?_, fun m hm1 hm2 =>
      ⟨(h3 m hm1 hm2).1, Nat.ne_of_lt (Nat.lt_of_lt_of_le hm2 h1),
        (h3 m hm1 hm2).2⟩⟩
    by_cases hcap : l = p.L
    · exact Or.inr (Or.inl hcap)
    · rcases h4 (Nat.lt_of_le_of_ne h1 hcap) with he | hc
      · exact Or.inl he
      · exact Or.inr (Or.inr hc)
  · obtain ⟨l, heq, h1, h2, h3, h4⟩ :=
      pagerankBasicOmpLoop_char ASYNC DEAD p fa threads s0
    refine ⟨l, heq, h2 hL, h1, ?_, fun m hm1 hm2 =>
      ⟨(h3 m hm1 hm2).1, Nat.ne_of_lt (Nat.lt_of_lt_of_le hm2 h1),
        (h3 m hm1 hm2).2⟩⟩
    by_cases hcap : l = p.L
    · exact Or.inr (Or.inl hcap)
    · rcases h4 (Nat.lt_of_le_of_ne h1 hcap) with he | hc
      · exact Or.inl he
      · exact Or.inr (Or.inr hc)

theorem pagerank_loop_stop_conditions_witness :
    1 ≤ pTol.L ∧
    ((∃ l, pagerankBasicSeqLoop false false pTol faTrue thrFalse sOne
        = (traceSt (pagerankBasicStep false false pTol faTrue) sOne l, l) ∧
      1 ≤ l ∧ l ≤ pTol.L ∧
      (traceErr (pagerankBasicStep false false pTol faTrue) sOne (l - 1) < pTol.E ∨
        l = pTol.L ∨ (thrFalse l).getD 0 false = true) ∧
      (∀ m, 1 ≤ m → m < l →
        ¬ traceErr (pagerankBasicStep false false pTol faTrue) sOne (m - 1) < pTol.E ∧
          m ≠ pTol.L ∧ (thrFalse m).getD 0 false = false)) ∧
    (∃ l, pagerankBasicOmpLoop false false pTol faTrue thrFalse sOne
        = (traceSt (pagerankBasicStep false false pTol faTrue) sOne l, l) ∧
      1 ≤ l ∧ l ≤ pTol.L ∧
      (traceErr (pagerankBasicStep false false pTol faTrue) sOne (l - 1) < pTol.E ∨
        l = pTol.L ∨ 0 < threadInfosCrashedCount (thrFalse l)) ∧
      (∀ m, 1 ≤ m → m < l →
        ¬ traceErr (pagerankBasicStep false false pTol faTrue) sOne (m - 1) < pTol.E ∧
          m ≠ pTol.L ∧ ¬ 0 < threadInfosCrashedCount (thrFalse m)))) :=
  ⟨by decide,
    pagerank_loop_stop_conditions false false pTol faTrue thrFalse sOne (by decide)⟩

/-- C9: For every input with maxIters L >= 1, the loop performs at least one
full iteration before any stopping condition is evaluated: whatever the
failure flags and however small the error (for example when the flags are
already set before the loop starts, or the initial ranks already satisfy the
tolerance), both loops return an iteration count of at least 1. -/
theorem pagerank_loop_at_least_one_iteration (ASYNC DEAD : Bool)
    (p : LoopParams) (fa : Nat → Bool) (threads : Nat → List Bool)
    (s0 : LoopState) (hL : 1 ≤ p.L) :
    1 ≤ (pagerankBasicSeqLoop ASYNC DEAD p fa threads s0).2 ∧
    1 ≤ (pagerankBasicOmpLoop ASYNC DEAD p fa threads s0).2 := by
  constructor
  · obtain ⟨l, heq, h1, h2, h3, h4⟩ :=
      pagerankBasicSeqLoop_char ASYNC DEAD p fa threads s0
    rw [heq]
    exact h2 hL
  · obtain ⟨l, heq, h1, h2, h3, h4⟩ :=
      pagerankBasicOmpLoop_char ASYNC DEAD p fa threads s0
    rw [heq]
    exact h2 hL

theorem pagerank_loop_at_least_one_iteration_witness :
    1 ≤ pTol.L ∧
    (1 ≤ (pagerankBasicSeqLoop false false pTol faTrue thrTrue sOne).2 ∧
      1 ≤ (pagerankBasicOmpLoop false false pTol faTrue thrTrue sOne).2) :=
  ⟨by decide,
    pagerank_loop_at_least_one_iteration false false pTol faTrue thrTrue sOne
      (by decide)⟩

/-- C5: in every iteration of the loop, after the error is computed the
current and previous rank buffers are exchanged iff the update discipline is
synchronous.  Asynchronously the just-computed ranks land in the current
buffer and the previous buffer of the loop state is never written (it keeps
its initial contents for the whole run); synchronously every iteration ends
with the exchange — the just-computed ranks land in the previous buffer and
the current buffer receives the old previous ranks — including the final
iteration, so the loop's returned previous buffer holds the newest ranks. -/
theorem pagerank_loop_buffer_exchange (DEAD : Bool) (p : LoopParams)
    (fa : Nat → Bool) (threads : Nat → List Bool) (s0 : LoopState)
    (hL : 1 ≤ p.L) :
    (∀ j, (traceSt (pagerankBasicStep true DEAD p fa) s0 (j + 1)).a
        = newRanksAt true DEAD p fa s0 j) ∧
    (∀ j, (traceSt (pagerankBasicStep true DEAD p fa) s0 j).r = s0.r) ∧
    (∀ j, (traceSt (pagerankBasicStep false DEAD p fa) s0 (j + 1)).r
        = newRanksAt false DEAD p fa s0 j ∧
      (traceSt (pagerankBasicStep false DEAD p fa) s0 (j + 1)).a
        = (traceSt (pagerankBasicStep false DEAD p fa) s0 j).r) ∧
    (∃ l, pagerankBasicSeqLoop false DEAD p fa threads s0
        = (traceSt (pagerankBasicStep false DEAD p fa) s0 l, l) ∧ 1 ≤ l ∧
      (pagerankBasicSeqLoop false DEAD p fa threads s0).1.r
        = newRanksAt false DEAD p fa s0 (l - 1)) ∧
    (∃ l, pagerankBasicOmpLoop false DEAD p fa threads s0
        = (traceSt (pagerankBasicStep false DEAD p fa) s0 l, l) ∧ 1 ≤ l ∧
      (pagerankBasicOmpLoop false DEAD p fa threads s0).1.r
        = newRanksAt false DEAD p fa s0 (l - 1)) := by
  have hasyncr : ∀ j,
      (traceSt (pagerankBasicStep true DEAD p fa) s0 j).r = s0.r := by
    intro j
    induction j with
    | zero => rfl
    | succ j ih => exact ih
  refine ⟨fun j => rfl, hasyncr, fun j => ⟨rfl, rfl⟩, ?_, ?_⟩
  · obtain ⟨l, heq, h1, h2, h3, h4⟩ :=
      pagerankBasicSeqLoop_char false DEAD p fa threads s0
    have hl : 0 < l := h2 hL
    have hfin : (traceSt (pagerankBasicStep false DEAD p fa) s0 l).r
        = newRanksAt false DEAD p fa s0 (l - 1) := by
      conv_lhs => rw [(Nat.succ_pred_eq_of_pos hl).symm]
      rfl
    refine ⟨l, heq, hl, ?_⟩
    rw [heq]
    exact hfin
  · obtain ⟨l, heq, h1, h2, h3, h4⟩ :=
      pagerankBasicOmpLoop_char false DEAD p fa threads s0
    have hl : 0 < l := h2 hL
    have hfin : (traceSt (pagerankBasicStep false DEAD p fa) s0 l).r
        = newRanksAt false DEAD p fa s0 (l - 1) := by
      conv_lhs => rw [(Nat.succ_pred_eq_of_pos hl).symm]
      rfl
    refine ⟨l, heq, hl, ?_⟩
    rw [heq]
    exact hfin

theorem pagerank_loop_buffer_exchange_witness :
    1 ≤ pTol.L ∧
    ((∀ j, (traceSt (pagerankBasicStep true false pTol faTrue) sOne (j + 1)).a
        = newRanksAt true false pTol faTrue sOne j) ∧
    (∀ j, (traceSt (pagerankBasicStep true false pTol faTrue) sOne j).r
        = sOne.r) ∧
    (∀ j, (traceSt (pagerankBasicStep false false pTol faTrue) sOne (j + 1)).r
        = newRanksAt false false pTol faTrue sOne j ∧
      (traceSt (pagerankBasicStep false false pTol faTrue) sOne (j + 1)).a
        = (traceSt (pagerankBasicStep false false pTol faTrue) sOne j).r) ∧
    (∃ l, pagerankBasicSeqLoop false false pTol faTrue thrFalse sOne
        = (traceSt (pagerankBasicStep false false pTol faTrue) sOne l, l) ∧
      1 ≤ l ∧
      (pagerankBasicSeqLoop false false pTol faTrue thrFalse sOne).1.r
        = newRanksAt false false pTol faTrue sOne (l - 1)) ∧
    (∃ l, pagerankBasicOmpLoop false false pTol faTrue thrFalse sOne
        = (traceSt (pagerankBasicStep false false pTol faTrue) sOne l, l) ∧
      1 ≤ l ∧
      (pagerankBasicOmpLoop false false pTol faTrue thrFalse sOne).1.r
        = newRanksAt false false pTol faTrue sOne (l - 1))) :=
  ⟨by decide,
    pagerank_loop_buffer_exchange false pTol faTrue thrFalse sOne (by decide)⟩

theorem foldl_add_map_sum (g : Nat → ℚ) :
    ∀ (L : List Nat) (z : ℚ),
      L.foldl (fun s v => s + g v) z = z + (L.map g).sum := by
  intro L
  induction L with
  | nil => intro z; simp
  | cons x L ih =>
    intro z
    rw [List.foldl_cons, ih (z + g x), List.map_cons, List.sum_cons]
    ring

theorem sum_map_filter_ite (q : Nat → Bool) (g : Nat → ℚ) :
    ∀ L : List Nat, ((L.filter q).map g).sum
      = (L.map (fun v => if q v then g v else 0)).sum := by
  intro L
  induction L with
  | nil => rfl
  | cons x L ih =>
    by_cases hx : q x = true
    · rw [List.filter_cons_of_pos hx, List.map_cons, List.sum_cons, ih,
        List.map_cons, List.sum_cons, if_pos hx]
    · rw [List.filter_cons_of_neg hx, ih, List.map_cons, List.sum_cons,
        if_neg hx, zero_add]

theorem mul_sum_map (c : ℚ) (g : Nat → ℚ) :
    ∀ L : List Nat, c * (L.map g).sum = (L.map (fun v => c * g v)).sum := by
  intro L
  induction L with
  | nil => simp
  | cons x L ih =>
    rw [List.map_cons, List.sum_cons, mul_add, ih, List.map_cons,
      List.sum_cons]

/-- The modelled DanglingMassEstimator agrees with the spec's wording of the
dangling-mass estimate. -/
theorem pagerankTeleport_eq_danglingMassSpec (r : List ℚ) (vdeg : List Nat)
    (P : ℚ) (N : Nat) :
    pagerankTeleport r vdeg P N = danglingMassSpec r vdeg P N := by
  unfold pagerankTeleport danglingMassSpec
  rw [foldl_add_map_sum, sum_map_filter_ite, mul_sum_map]
  congr 1
  refine congrArg _ (List.map_congr_left ?_)
  intro v _
  rw [mul_ite, mul_zero, div_mul_eq_mul_div]
  simp

/-- C4: in every iteration of either loop, the base contribution constant C0
equals (1-damping)/N when dead-end handling is disabled, and equals the
dangling-mass estimate computed from the previous-iteration rank vector and
the out-degrees (damping-weighted rank trapped at zero-out-degree vertices
plus the teleport term) when dead-end handling is enabled; the ranks written
in iteration j+1 are propagated from exactly that constant. -/
theorem pagerank_loop_base_constant (ASYNC DEAD : Bool) (p : LoopParams)
    (fa : Nat → Bool) (s0 : LoopState) (j : Nat) :
    pagerankC0 DEAD p (traceSt (pagerankBasicStep ASYNC DEAD p fa) s0 j).r
      = (if DEAD then
          danglingMassSpec (traceSt (pagerankBasicStep ASYNC DEAD p fa) s0 j).r
            p.vdeg p.P p.N
        else (1 - p.P) / (p.N : ℚ)) ∧
    newRanksAt ASYNC DEAD p fa s0 j
      = pagerankCalculateRanks
          (traceSt (pagerankBasicStep ASYNC DEAD p fa) s0 j).a
          (traceSt (pagerankBasicStep ASYNC DEAD p fa) s0 j).c p.xv p.xe
          (if DEAD then
            danglingMassSpec (traceSt (pagerankBasicStep ASYNC DEAD p fa) s0 j).r
              p.vdeg p.P p.N
          else (1 - p.P) / (p.N : ℚ)) p.i p.n fa ∧
    (if ASYNC then (traceSt (pagerankBasicStep ASYNC DEAD p fa) s0 (j + 1)).a
      else (traceSt (pagerankBasicStep ASYNC DEAD p fa) s0 (j + 1)).r)
      = newRanksAt ASYNC DEAD p fa s0 j := by
  have hC0 : pagerankC0 DEAD p
        (traceSt (pagerankBasicStep ASYNC DEAD p fa) s0 j).r
      = (if DEAD then
          danglingMassSpec (traceSt (pagerankBasicStep ASYNC DEAD p fa) s0 j).r
            p.vdeg p.P p.N
        else (1 - p.P) / (p.N : ℚ)) := by
    cases DEAD
    · rfl
    · simp [pagerankC0, pagerankTeleport_eq_danglingMassSpec]
  refine ⟨hC0, ?_, ?_⟩
  · rw [← hC0]
    rfl
  · cases ASYNC
    · rfl
    · rfl

/-- C7: if the (post-change) graph has zero vertices, each of the four
drivers returns the empty result (empty ranks, zero iterations performed)
immediately, without invoking the iteration loop; the empty result is
ordinary data, not an error. -/
theorem pagerank_empty_graph_empty_result (ASYNC DEAD : Bool)
    (xt : TransposeGraph) (q : Option (List ℚ)) (o : PagerankOptions)
    (threads : Nat → List Bool) (x y : Graph) (yt : TransposeGraph)
    (deletions insertions : List (Nat × Nat))
    (hx : xt.order = 0) (hy : yt.order = 0) :
    pagerankBasicSeq ASYNC DEAD xt q o threads = ⟨[], 0⟩ ∧
    pagerankBasicOmp ASYNC DEAD xt q o threads = ⟨[], 0⟩ ∧
    pagerankBasicDynamicTraversalSeq ASYNC DEAD x xt y yt deletions
        insertions q o threads = ⟨[], 0⟩ ∧
    pagerankBasicDynamicTraversalOmp ASYNC DEAD x xt y yt deletions
        insertions q o threads = ⟨[], 0⟩ := by
  refine ⟨?_, ?_, ?_, ?_⟩
  · simp [pagerankBasicSeq, hx]
  · simp [pagerankBasicOmp, hx]
  · simp [pagerankBasicDynamicTraversalSeq, hy]
  · simp [pagerankBasicDynamicTraversalOmp, hy]

theorem pagerank_empty_graph_empty_result_witness :
    xtNil.order = 0 ∧
    (pagerankBasicSeq false false xtNil none oTol thrFalse = ⟨[], 0⟩ ∧
      pagerankBasicOmp false false xtNil none oTol thrFalse = ⟨[], 0⟩ ∧
      pagerankBasicDynamicTraversalSeq false false gNil xtNil gNil xtNil []
          [] none oTol thrFalse = ⟨[], 0⟩ ∧
      pagerankBasicDynamicTraversalOmp false false gNil xtNil gNil xtNil []
          [] none oTol thrFalse = ⟨[], 0⟩) :=
  ⟨rfl,
    pagerank_empty_graph_empty_result false false xtNil none oTol thrFalse
      gNil gNil xtNil [] [] rfl rfl⟩

/-- C10: the dynamic-traversal drivers never read the pre-change transpose
argument xt: for any two values of it and otherwise identical inputs, the
returned ranks and iteration counts are equal. -/
theorem pagerank_dynamic_ignores_pre_transpose (ASYNC DEAD : Bool)
    (x y : Graph) (xt xt2 yt : TransposeGraph)
    (deletions insertions : List (Nat × Nat)) (q : Option (List ℚ))
    (o : PagerankOptions) (threads : Nat → List Bool) :
    pagerankBasicDynamicTraversalSeq ASYNC DEAD x xt y yt deletions
        insertions q o threads
      = pagerankBasicDynamicTraversalSeq ASYNC DEAD x xt2 y yt deletions
          insertions q o threads ∧
    pagerankBasicDynamicTraversalOmp ASYNC DEAD x xt y yt deletions
        insertions q o threads
      = pagerankBasicDynamicTraversalOmp ASYNC DEAD x xt2 y yt deletions
          insertions q o threads :=
  ⟨rfl, rfl⟩

theorem pagerankCalculateRanks_true_eq_all (a c : List ℚ) (xv xe : List Nat)
    (C0 : ℚ) (i n : Nat) :
    pagerankCalculateRanks a c xv xe C0 i n (fun _ => true)
      = pagerankCalculateRanksAll a c xv xe C0 i n := by
  unfold pagerankCalculateRanks pagerankCalculateRanksAll
  refine List.map_congr_left ?_
  intro v _
  simp

/-- C8: on a non-empty graph the static drivers invoke the loop over the full
index range [0, N) with the affected predicate equal to the constant function
true, and with that predicate the rank propagation recomputes every vertex of
the range in every iteration (it coincides with the unrestricted
propagation). -/
theorem pagerank_static_full_range (ASYNC DEAD : Bool) (xt : TransposeGraph)
    (q : Option (List ℚ)) (o : PagerankOptions) (threads : Nat → List Bool)
    (h : xt.order ≠ 0) :
    pagerankBasicSeq ASYNC DEAD xt q o threads
      = pagerankSeq ASYNC DEAD xt q o 0 xt.order threads (fun _ => true) ∧
    pagerankBasicOmp ASYNC DEAD xt q o threads
      = pagerankOmp ASYNC DEAD xt q o 0 xt.order threads (fun _ => true) ∧
    (∀ a c xv xe C0 i n,
      pagerankCalculateRanks a c xv xe C0 i n (fun _ => true)
        = pagerankCalculateRanksAll a c xv xe C0 i n) := by
  refine ⟨?_, ?_, fun a c xv xe C0 i n =>
    pagerankCalculateRanks_true_eq_all a c xv xe C0 i n⟩
  · simp [pagerankBasicSeq, h]
  · simp [pagerankBasicOmp, h]

theorem pagerank_static_full_range_witness :
    xtOne.order ≠ 0 ∧
    (pagerankBasicSeq false false xtOne (some [1]) oTol thrFalse
      = pagerankSeq false false xtOne (some [1]) oTol 0 xtOne.order thrFalse
          (fun _ => true) ∧
    pagerankBasicOmp false false xtOne (some [1]) oTol thrFalse
      = pagerankOmp false false xtOne (some [1]) oTol 0 xtOne.order thrFalse
          (fun _ => true) ∧
    (∀ a c xv xe C0 i n,
      pagerankCalculateRanks a c xv xe C0 i n (fun _ => true)
        = pagerankCalculateRanksAll a c xv xe C0 i n)) :=
  ⟨by decide,
    pagerank_static_full_range false false xtOne (some [1]) oTol thrFalse
      (by decide)⟩

/-- If the first iteration's error is already below the tolerance and the cap
allows at least one iteration, the loop stops after exactly one iteration. -/
theorem loopGo_first_stop {σ : Type} (body : σ → σ × ℚ) (E : ℚ)
    (crash : Nat → Bool) (L : Nat) (s0 : σ) (hL : 1 ≤ L)
    (h : (body s0).2 < E) :
    loopGo body E crash L s0 0 = ((body s0).1, 1) := by
  obtain ⟨L2, rfl⟩ : ∃ L2, L = L2 + 1 :=
    ⟨L - 1, (Nat.succ_pred_eq_of_pos hL).symm⟩
  exact if_pos h

/-- C6: on a non-empty graph with an iteration cap of at least 1, if the
initial rank vector already satisfies the convergence tolerance — the error
between the ranks produced by one update and the initial ranks is below the
tolerance — the static drivers perform at most 1 iteration before
stopping. -/
theorem pagerank_static_idempotence (ASYNC DEAD : Bool)
    (xt : TransposeGraph) (q : Option (List ℚ)) (o : PagerankOptions)
    (threads : Nat → List Bool) (h0 : xt.order ≠ 0)
    (hL : 1 ≤ o.maxIterations)
    (hconv : pagerankError (staticFirstUpdate DEAD xt q o)
        (initialRanks xt q) o.toleranceNorm 0 xt.order < o.tolerance) :
    (pagerankBasicSeq ASYNC DEAD xt q o threads).iterations ≤ 1 ∧
    (pagerankBasicOmp ASYNC DEAD xt q o threads).iterations ≤ 1 := by
  have hEpos : 0 < o.tolerance :=
    lt_of_le_of_lt (pagerankError_nonneg _ _ _ _ _) hconv
  have hL2 : 1 ≤ (staticParams xt o).L := hL
  cases ASYNC
  · have hconv2 : (pagerankBasicStep false DEAD (staticParams xt o)
        (fun _ => true) (staticState xt q o)).2 < (staticParams xt o).E :=
      hconv
    have h1 : (loopGo
        (pagerankBasicStep false DEAD (staticParams xt o) (fun _ => true))
        (staticParams xt o).E (fun l => (threads l).getD 0 false)
        (staticParams xt o).L (staticState xt q o) 0).2 = 1 := by
      rw [loopGo_first_stop _ _ _ _ _ hL2 hconv2]
    have h2 : (loopGo
        (pagerankBasicStep false DEAD (staticParams xt o) (fun _ => true))
        (staticParams xt o).E
        (fun l => decide (0 < threadInfosCrashedCount (threads l)))
        (staticParams xt o).L (staticState xt q o) 0).2 = 1 := by
      rw [loopGo_first_stop _ _ _ _ _ hL2 hconv2]
    constructor
    · calc (pagerankBasicSeq false DEAD xt q o threads).iterations
          = (loopGo
              (pagerankBasicStep false DEAD (staticParams xt o)
                (fun _ => true))
              (staticParams xt o).E (fun l => (threads l).getD 0 false)
              (staticParams xt o).L (staticState xt q o) 0).2 := by
            show (pagerankBasicSeq false DEAD xt q o threads).iterations = _
            simp only [pagerankBasicSeq, if_neg h0]
            rfl
        _ ≤ 1 := le_of_eq h1
    · calc (pagerankBasicOmp false DEAD xt q o threads).iterations
          = (loopGo
              (pagerankBasicStep false DEAD (staticParams xt o)
                (fun _ => true))
              (staticParams xt o).E
              (fun l => decide (0 < threadInfosCrashedCount (threads l)))
              (staticParams xt o).L (staticState xt q o) 0).2 := by
            simp only [pagerankBasicOmp, if_neg h0]
            rfl
        _ ≤ 1 := le_of_eq h2
  · have hz : (pagerankBasicStepAliased DEAD (staticParams xt o)
        (fun _ => true) (staticStateAliased xt q o)).2 = 0 := by
      show pagerankError _ _ _ _ _ = 0
      exact pagerankError_self _ _ _ _
    have hconvA : (pagerankBasicStepAliased DEAD (staticParams xt o)
        (fun _ => true) (staticStateAliased xt q o)).2
        < (staticParams xt o).E := by
      rw [hz]
      exact hEpos
    have h1 : (loopGo
        (pagerankBasicStepAliased DEAD (staticParams xt o) (fun _ => true))
        (staticParams xt o).E (fun l => (threads l).getD 0 false)
        (staticParams xt o).L (staticStateAliased xt q o) 0).2 = 1 := by
      rw [loopGo_first_stop _ _ _ _ _ hL2 hconvA]
    have h2 : (loopGo
        (pagerankBasicStepAliased DEAD (staticParams xt o) (fun _ => true))
        (staticParams xt o).E
        (fun l => decide (0 < threadInfosCrashedCount (threads l)))
        (staticParams xt o).L (staticStateAliased xt q o) 0).2 = 1 := by
      rw [loopGo_first_stop _ _ _ _ _ hL2 hconvA]
    constructor
    · calc (pagerankBasicSeq true DEAD xt q o threads).iterations
          = (loopGo
              (pagerankBasicStepAliased DEAD (staticParams xt o)
                (fun _ => true))
              (staticParams xt o).E (fun l => (threads l).getD 0 false)
              (staticParams xt o).L (staticStateAliased xt q o) 0).2 := by
            simp only [pagerankBasicSeq, if_neg h0]
            rfl
        _ ≤ 1 := le_of_eq h1
    · calc (pagerankBasicOmp true DEAD xt q o threads).iterations
          = (loopGo
              (pagerankBasicStepAliased DEAD (staticParams xt o)
                (fun _ => true))
              (staticParams xt o).E
              (fun l => decide (0 < threadInfosCrashedCount (threads l)))
              (staticParams xt o).L (staticStateAliased xt q o) 0).2 := by
            simp only [pagerankBasicOmp, if_neg h0]
            rfl
        _ ≤ 1 := le_of_eq h2

theorem pagerank_static_idempotence_witness :
    xtOne.order ≠ 0 ∧ 1 ≤ oTol.maxIterations ∧
    pagerankError (staticFirstUpdate false xtOne (some [1]) oTol)
        (initialRanks xtOne (some [1])) oTol.toleranceNorm 0 xtOne.order
      < oTol.tolerance ∧
    ((pagerankBasicSeq false false xtOne (some [1]) oTol thrFalse).iterations
        ≤ 1 ∧
      (pagerankBasicOmp false false xtOne (some [1]) oTol thrFalse).iterations
        ≤ 1) := by
  have hconv : pagerankError (staticFirstUpdate false xtOne (some [1]) oTol)
      (initialRanks xtOne (some [1])) oTol.toleranceNorm 0 xtOne.order
      < oTol.tolerance := by
    show |(1 - 17 / 20) / ((1 : ℕ) : ℚ) + 0 - 1| + 0 < 1
    norm_num [abs_lt]
  exact ⟨by decide, by decide, hconv,
    pagerank_static_idempotence false false xtOne (some [1]) oTol thrFalse
      (by decide) (by decide) hconv⟩

theorem pagerankCalculateRanks_congr (a c : List ℚ) (xv xe : List Nat)
    (C0 : ℚ) (i n : Nat) (fa fb : Nat → Bool)
    (h : ∀ v, i ≤ v → v < i + n → fa v = fb v) :
    pagerankCalculateRanks a c xv xe C0 i n fa
      = pagerankCalculateRanks a c xv xe C0 i n fb := by
  unfold pagerankCalculateRanks
  refine List.map_congr_left ?_
  intro v _
  by_cases h1 : i ≤ v
  · by_cases h2 : v < i + n
    · rw [h v h1 h2]
    · simp [h2]
  · simp [h1]

theorem pagerankBasicStep_congr (ASYNC DEAD : Bool) (p : LoopParams)
    (fa fb : Nat → Bool)
    (h : ∀ v, p.i ≤ v → v < p.i + p.n → fa v = fb v) :
    pagerankBasicStep ASYNC DEAD p fa = pagerankBasicStep ASYNC DEAD p fb := by
  funext s
  simp only [pagerankBasicStep]
  rw [pagerankCalculateRanks_congr _ _ _ _ _ _ _ fa fb h]

theorem pagerankBasicStepAliased_congr (DEAD : Bool) (p : LoopParams)
    (fa fb : Nat → Bool)
    (h : ∀ v, p.i ≤ v → v < p.i + p.n → fa v = fb v) :
    pagerankBasicStepAliased DEAD p fa = pagerankBasicStepAliased DEAD p fb := by
  funext s
  simp only [pagerankBasicStepAliased]
  rw [pagerankCalculateRanks_congr _ _ _ _ _ _ _ fa fb h]

/-- The driver helper reads the affected predicate only on the index range of
the run. -/
theorem pagerankSeq_fa_congr (ASYNC DEAD : Bool) (xt : TransposeGraph)
    (q : Option (List ℚ)) (o : PagerankOptions) (i n : Nat)
    (threads : Nat → List Bool) (fa fb : Nat → Bool)
    (h : ∀ v, i ≤ v → v < i + n → fa v = fb v) :
    pagerankSeq ASYNC DEAD xt q o i n threads fa
      = pagerankSeq ASYNC DEAD xt q o i n threads fb := by
  have hstep := pagerankBasicStep_congr false DEAD (loopParamsOf xt o i n)
    fa fb h
  have hstepA := pagerankBasicStepAliased_congr DEAD (loopParamsOf xt o i n)
    fa fb h
  simp only [pagerankSeq, pagerankBasicSeqLoop]
  rw [hstep, hstepA]

theorem pagerankOmp_fa_congr (ASYNC DEAD : Bool) (xt : TransposeGraph)
    (q : Option (List ℚ)) (o : PagerankOptions) (i n : Nat)
    (threads : Nat → List Bool) (fa fb : Nat → Bool)
    (h : ∀ v, i ≤ v → v < i + n → fa v = fb v) :
    pagerankOmp ASYNC DEAD xt q o i n threads fa
      = pagerankOmp ASYNC DEAD xt q o i n threads fb := by
  have hstep := pagerankBasicStep_congr false DEAD (loopParamsOf xt o i n)
    fa fb h
  have hstepA := pagerankBasicStepAliased_congr DEAD (loopParamsOf xt o i n)
    fa fb h
  simp only [pagerankOmp, pagerankBasicOmpLoop]
  rw [hstep, hstepA]

/-- C2: on a non-empty post-change graph, the affected predicate the dynamic
drivers pass to the loop is exactly the output of the affected-set traversal
applied to the pre-change graph and the deletion/insertion batch, remapped
into the dense position space of the post-change graph: on every position of
the run's range the compressed vector agrees with the spec-side predicate,
and each driver's run equals the run with that fixed, iteration-independent
predicate (the loop receives it once, before iterating, and applies the same
predicate at every iteration). -/
theorem pagerank_dynamic_affected_predicate (ASYNC DEAD : Bool)
    (x y : Graph) (xt yt : TransposeGraph)
    (deletions insertions : List (Nat × Nat)) (q : Option (List ℚ))
    (o : PagerankOptions) (threads : Nat → List Bool)
    (h : yt.order ≠ 0) :
    (∀ u, u < yt.order →
      (compressContainer y
        (pagerankAffectedVerticesTraversal x deletions insertions)
        yt.ks).getD u false
        = affectedSpecPred x yt deletions insertions u) ∧
    pagerankBasicDynamicTraversalSeq ASYNC DEAD x xt y yt deletions
        insertions q o threads
      = pagerankSeq ASYNC DEAD yt q o 0 yt.order threads
          (affectedSpecPred x yt deletions insertions) ∧
    pagerankBasicDynamicTraversalOmp ASYNC DEAD x xt y yt deletions
        insertions q o threads
      = pagerankOmp ASYNC DEAD yt q o 0 yt.order threads
          (affectedSpecPred x yt deletions insertions) := by
  have hmap : ∀ u, u < yt.order →
      (compressContainer y
        (pagerankAffectedVerticesTraversal x deletions insertions)
        yt.ks).getD u false
        = affectedSpecPred x yt deletions insertions u := by
    intro u hu
    have hu2 : u < yt.ks.length := hu
    simp [compressContainer, affectedSpecPred, List.getD_eq_getElem?_getD,
      List.getElem?_map, List.getElem?_eq_getElem hu2]
  refine ⟨hmap, ?_, ?_⟩
  · simp only [pagerankBasicDynamicTraversalSeq, if_neg h]
    refine pagerankSeq_fa_congr ASYNC DEAD yt q o 0 yt.order threads _ _ ?_
    intro v h1 h2
    exact hmap v (by omega)
  · simp only [pagerankBasicDynamicTraversalOmp, if_neg h]
    refine pagerankOmp_fa_congr ASYNC DEAD yt q o 0 yt.order threads _ _ ?_
    intro v h1 h2
    exact hmap v (by omega)

theorem pagerank_dynamic_affected_predicate_witness :
    ytTwo.order ≠ 0 ∧
    ((∀ u, u < ytTwo.order →
      (compressContainer gTwo
        (pagerankAffectedVerticesTraversal gTwo [] [(0, 1)])
        ytTwo.ks).getD u false
        = affectedSpecPred gTwo ytTwo [] [(0, 1)] u) ∧
    pagerankBasicDynamicTraversalSeq false false gTwo xtOne gTwo ytTwo []
        [(0, 1)] none oTol thrFalse
      = pagerankSeq false false ytTwo none oTol 0 ytTwo.order thrFalse
          (affectedSpecPred gTwo ytTwo [] [(0, 1)]) ∧
    pagerankBasicDynamicTraversalOmp false false gTwo xtOne gTwo ytTwo []
        [(0, 1)] none oTol thrFalse
      = pagerankOmp false false ytTwo none oTol 0 ytTwo.order thrFalse
          (affectedSpecPred gTwo ytTwo [] [(0, 1)])) :=
  ⟨by decide,
    pagerank_dynamic_affected_predicate false false gTwo gTwo xtOne ytTwo
      [] [(0, 1)] none oTol thrFalse (by decide)⟩

end PagerankBasic
